import Mathlib

/-!
Shallow embedding of `pkg/tool/exec/exec.go` (the `tool/exec.Run` task
runner): the command resolver `mkCommand`, the stream-capture wiring of
`Run`, and the result finalization `toStreamOutput`, together with proofs
about them.

Configuration-document values are modelled as a kind-tagged tree
(`CueVal`), mirroring the interface of `cue.Value` that `exec.go` consumes
(LookupPath, Kind, Null, String, Bool, Reader, List, Fields).  A document
is an ordered association list of fields; an absent field is `none` on
lookup, which models the error value `cue.Value.LookupPath` returns for a
missing path.
-/

/-- Kind tags of configuration-document values, as consumed through
`cue.Value.Kind` / `cue.Value.IncompleteKind` in `exec.go`.  `otherK`
stands for any kind mask that is none of the listed single kinds
(for example a multi-kind disjunction), which matches no single-kind
`case` of a Go `switch`. -/
inductive CueKind where
  | nullK
  | boolK
  | stringK
  | bytesK
  | intK
  | floatK
  | listK
  | structK
  | otherK
deriving DecidableEq, Repr

/-- Configuration-document value: a kind-tagged tree.  Concrete values
carry their payload; `incomplete k` is a non-concrete value (such as the
type `string` or `bytes` written in a stream field) whose incomplete kind
is `k`.  A concrete float carries its printed decimal form, which is what
`fmt.Sprint` renders for it. -/
inductive CueVal where
  | null
  | bool (b : Bool)
  | str (s : String)
  | bytes (s : String)
  | int (n : Int)
  | float (printed : String)
  | list (xs : List CueVal)
  | struct (fs : List (String × CueVal))
  | incomplete (k : CueKind)

/-- Configuration document: the merged object the runner reads fields
from, as an ordered association list. -/
def CueDoc := List (String × CueVal)

/-- Field lookup, modelling `cue.Value.LookupPath`: `none` is the error
value returned for an absent field. -/
def lookupField (object : CueDoc) (name : String) : Option CueVal :=
  match object with
  | [] => none
  | (k, v) :: rest => if k = name then some v else lookupField rest name

/-- Incomplete kind of a value, modelling `cue.Value.IncompleteKind` (and
`Kind`, which agrees with it on the concrete values we represent). -/
def incompleteKind (v : CueVal) : CueKind :=
  match v with
  | .null => .nullK
  | .bool _ => .boolK
  | .str _ => .stringK
  | .bytes _ => .bytesK
  | .int _ => .intK
  | .float _ => .floatK
  | .list _ => .listK
  | .struct _ => .structK
  | .incomplete k => k

/-- String extraction, modelling `cue.Value.String`: succeeds exactly on a
concrete string value. -/
def strOf (v : CueVal) : Option String :=
  match v with
  | .str s => some s
  | _ => none

/-- Boolean test used to phrase hypotheses about `cue.Value.Bool`
resolvability: true exactly on a concrete boolean value. -/
def isBoolV (v : CueVal) : Bool :=
  match v with
  | .bool _ => true
  | _ => false

/-- Reader extraction, modelling `cue.Value.Reader`: succeeds on concrete
string and bytes values, which are the values a readable stream can be
obtained from, and fails otherwise. -/
def readerOf (v : CueVal) : Option String :=
  match v with
  | .str s => some s
  | .bytes s => some s
  | _ => none

/-- Error kinds surfaced by the runner, mirroring the error returns of
`exec.go`.  `commandFailed` carries the display form of the command and
the process error text, the two data formatted into the message by
`fmt.Errorf("command %q failed: %v", doc, err)`. -/
inductive ExecErr where
  | ctxErr
  | emptyCommand
  | emptyCommandList
  | invalidElement
  | invalidEnvValue
  | invalidInput
  | invalidBool
  | commandFailed (displayDoc : String) (errText : String)
deriving DecidableEq, Repr

/-- Whitespace predicate of Go `unicode.IsSpace`, which `strings.Fields`
splits on: the Latin-1 white space characters and the Unicode space
category code points. -/
def isSpaceGo (c : Char) : Bool :=
  c.val = 9 || c.val = 10 || c.val = 11 || c.val = 12 || c.val = 13 ||
  c.val = 32 || c.val = 133 || c.val = 160 || c.val = 0x1680 ||
  (0x2000 ≤ c.val && c.val ≤ 0x200a) ||
  c.val = 0x2028 || c.val = 0x2029 || c.val = 0x202f || c.val = 0x205f ||
  c.val = 0x3000

/-- Accumulator pass over the characters for `fieldsGo`: `cur` holds the
reversed characters of the token being read. -/
def fieldsAux (cs : List Char) (cur : List Char) : List String :=
  match cs with
  | [] => if cur.isEmpty then [] else [String.mk cur.reverse]
  | c :: rest =>
    if isSpaceGo c then
      if cur.isEmpty then fieldsAux rest []
      else String.mk cur.reverse :: fieldsAux rest []
    else fieldsAux rest (c :: cur)

/-- Tokenization of Go `strings.Fields`: split the string around runs of
white space; the resulting tokens are the maximal non-empty runs of
non-space characters. -/
def fieldsGo (s : String) : List String :=
  fieldsAux s.data []

/-- Result of resolving the `cmd` field (the `switch v.Kind()` of
`mkCommand`, lines 137-167, including the trailing empty-binary check).
`crashc` models a Go runtime panic, which is not an error return. -/
inductive CmdRes where
  | okc (bin : String) (args : List String) (displayDoc : String)
  | errc (e : ExecErr)
  | crashc (msg : String)
deriving DecidableEq, Repr

/-- Loop body of the list branch of `mkCommand`: consume the remaining
list elements, appending each resolved string to `args` and `" " ++ s` to
the display doc, failing on the first element that is not a string. -/
def resolveListLoop (bin : String) (args : List String) (doc : String)
    (rest : List CueVal) : CmdRes :=
  match rest with
  | [] => .okc bin args doc
  | v :: vs =>
    match strOf v with
    | none => .errc .invalidElement
    | some s => resolveListLoop bin (args ++ [s]) (doc ++ " " ++ s) vs

/-- Resolution of the `cmd` field of the document, translated from
`mkCommand` lines 132-167.  An absent field surfaces the context lookup
error.  In the string branch, `strings.Fields` tokenizes the string and
`list[0]` is read unconditionally: on a string with no tokens this is an
index-out-of-range panic, modelled by `crashc`.  After the switch, an
empty binary is rejected with the empty-command error. -/
def resolveCmdCore (v : Option CueVal) : CmdRes :=
  match v with
  | none => .errc .ctxErr
  | some (.str s) =>
    match fieldsGo s with
    | [] => .crashc "index out of range"
    | b :: rest => .okc b rest s
  | some (.list xs) =>
    match xs with
    | [] => .errc .emptyCommandList
    | v0 :: vs =>
      match strOf v0 with
      | none => .errc .invalidElement
      | some b => resolveListLoop b [] b vs
  | some _ => .okc "" [] ""

/-- Post-check of `mkCommand` (lines 165-167): a command whose binary is
still empty after the switch fails with the empty-command error. -/
def resolveCmd (v : Option CueVal) : CmdRes :=
  match resolveCmdCore v with
  | .okc b args d => if b = "" then .errc .emptyCommand else .okc b args d
  | other => other

/-- Environment resolution, list shape (`mkCommand` lines 175-183): each
element must resolve, after applying its default, to a string, appended
verbatim. -/
def envFromList (xs : List CueVal) : Except ExecErr (List String) :=
  match xs with
  | [] => .ok []
  | v :: vs =>
    match strOf v with
    | none => .error .invalidEnvValue
    | some s => (envFromList vs).map (fun rest => s :: rest)

/-- One struct-shaped environment entry (`mkCommand` lines 186-199):
string values are used directly, int and float values are printed with
`fmt.Sprint`, any other kind is rejected; the entry is formatted as
`label=value`. -/
def envEntry (label : String) (v : CueVal) : Except ExecErr String :=
  match v with
  | .str s => .ok (label ++ "=" ++ s)
  | .int n => .ok (label ++ "=" ++ toString n)
  | .float p => .ok (label ++ "=" ++ p)
  | _ => .error .invalidEnvValue

/-- Environment resolution, struct shape: iterate the fields in document
order, resolving each entry. -/
def envFromStruct (fs : List (String × CueVal)) : Except ExecErr (List String) :=
  match fs with
  | [] => .ok []
  | (label, v) :: rest =>
    match envEntry label v with
    | .error e => .error e
    | .ok s => (envFromStruct rest).map (fun tail => s :: tail)

/-- Environment resolution of the `env` field (`mkCommand` lines
173-200): the list iterator yields elements only for a list value, the
fields iterator yields fields only for a struct value, and any other
value (including an absent field) contributes nothing. -/
def resolveEnv (v : Option CueVal) : Except ExecErr (List String) :=
  match v with
  | some (.list xs) => envFromList xs
  | some (.struct fs) => envFromStruct fs
  | _ => .ok []

/-- Working-directory resolution (`mkCommand` line 171): the `dir` field
if it resolves to a string, with the error ignored, leaving the zero
value otherwise. -/
def resolveDir (v : Option CueVal) : String :=
  match v with
  | some w =>
    match strOf w with
    | some s => s
    | none => ""
  | none => ""

/-- Resolved command specification: the fields of the `exec.Cmd` that
`mkCommand` fills in (binary, argument list, working directory,
environment entries). -/
structure Cmd where
  binary : String
  args : List String
  dir : String
  env : List String
deriving DecidableEq, Repr

/-- Result of `mkCommand`: a command plus its display doc, an error, or a
runtime panic propagating out of the string branch. -/
inductive MkRes where
  | okm (c : Cmd) (displayDoc : String)
  | errm (e : ExecErr)
  | crashm (msg : String)
deriving DecidableEq, Repr

/-- Full command resolution, translated from `mkCommand` (lines 128-202):
resolve `cmd`, then construct the command with the `dir` and `env` fields
of the document. -/
def mkCommand (object : CueDoc) : MkRes :=
  match resolveCmd (lookupField object "cmd") with
  | .crashc m => .crashm m
  | .errc e => .errm e
  | .okc bin args d =>
    match resolveEnv (lookupField object "env") with
    | .error e => .errm e
    | .ok env =>
      .okm ⟨bin, args, resolveDir (lookupField object "dir"), env⟩ d

/-- Stream helper of `Run` (lines 54-60): look up the field; return it
only when the lookup succeeded (no error value) and `Null()` reports an
error, that is the value is not null.  An absent field or a null value
yields no capture. -/
def stream (object : CueDoc) (name : String) : Option CueVal :=
  match lookupField object name with
  | none => none
  | some .null => none
  | some v => some v

/-- Destination a process output stream is wired to. -/
inductive Sink where
  | ambient
  | buffer
deriving DecidableEq, Repr

/-- Wiring of the stdout stream (lines 68, 71-75): the ambient handle as
a baseline, replaced by the capture buffer when the stream helper accepts
the `stdout` field. -/
def stdoutSink (object : CueDoc) : Sink :=
  if (stream object "stdout").isSome then .buffer else .ambient

/-- Wiring of the stderr stream (lines 69, 77-81). -/
def stderrSink (object : CueDoc) : Sink :=
  if (stream object "stderr").isSome then .buffer else .ambient

/-- Source wired to the process input. -/
inductive StdinSrc where
  | ambientIn
  | docIn (contents : String)
  | invalidIn
deriving DecidableEq, Repr

/-- Wiring of the stdin stream (lines 62-66): the ambient handle when the
stream helper rejects the `stdin` field, otherwise a reader over the
field value, whose failure is the invalid-input error. -/
def stdinSrc (object : CueDoc) : StdinSrc :=
  match stream object "stdin" with
  | none => .ambientIn
  | some v =>
    match readerOf v with
    | some s => .docIn s
    | none => .invalidIn

/-- Captured-stream value exposed in the update document. -/
inductive OutVal where
  | str (s : String)
  | bytes (s : String)
  | null
deriving DecidableEq, Repr

/-- Finalization of a captured buffer, translated from `toStreamOutput`
(lines 118-126): the buffer contents as a string for incomplete kind
string, as bytes for incomplete kind bytes, and nil for every other
kind. -/
def toStreamOutput (v : CueVal) (buf : String) : OutVal :=
  match incompleteKind v with
  | .stringK => .str buf
  | .bytesK => .bytes buf
  | _ => .null

/-- Modelled from the spec: reading `mustSucceed` (lines 83-87) goes
through the document unified with the task schema, and the schema file of
this task is not part of the sources under review; per the spec the field
is treated as false when absent, resolves as a boolean when it is one,
and any other present value is the invalid-bool error. -/
def readMustSucceed (object : CueDoc) : Except ExecErr Bool :=
  match lookupField object "mustSucceed" with
  | none => .ok false
  | some (.bool b) => .ok b
  | some _ => .error .invalidBool

/-- Behaviour of the spawned child process for one run: whether
`cmd.Run()` returned nil, the text of its error when it did not, and the
data the child wrote to its output and error streams. -/
structure ProcessBehavior where
  exitOk : Bool
  errText : String
  stdoutData : String
  stderrData : String
deriving DecidableEq, Repr

/-- Update document produced by a successful `Run`: the `success` key and
the optional `stdout` and `stderr` keys. -/
structure Update where
  success : Bool
  stdout : Option OutVal
  stderr : Option OutVal
deriving DecidableEq, Repr

/-- Result value of `Run`: an update document, an error return, or a
propagating runtime panic. -/
inductive RunRes where
  | okRes (u : Update)
  | errRes (e : ExecErr)
  | crashRes (msg : String)
deriving DecidableEq, Repr

/-- Outcome of one `Run` call: its result, and whether `cmd.Run()` (the
process execution at line 90) was reached. -/
structure RunOut where
  res : RunRes
  ran : Bool
deriving DecidableEq, Repr

/-- Contents of the stderr capture buffer at finalization time (lines
97-100): the data the child wrote, except that an empty buffer receives
the process error text when the process failed. -/
def stderrFinal (pb : ProcessBehavior) : String :=
  if pb.stderrData = "" && !pb.exitOk then pb.errText else pb.stderrData

/-- Tail of `Run` after wiring and the `mustSucceed` read (lines 89-113):
run the process, build the update with `success` and the finalized
captured buffers, and return the update unless the process failed with
`mustSucceed` set, in which case the command-failed error is returned
instead. -/
def runFinalize (object : CueDoc) (pb : ProcessBehavior)
    (displayDoc : String) (mustSucceed : Bool) : RunOut :=
  let u : Update :=
    { success := pb.exitOk
      stdout := (stream object "stdout").map (fun v => toStreamOutput v pb.stdoutData)
      stderr := (stream object "stderr").map (fun v => toStreamOutput v (stderrFinal pb)) }
  if pb.exitOk then ⟨.okRes u, true⟩
  else if mustSucceed then
    ⟨.errRes (.commandFailed displayDoc pb.errText), true⟩
  else ⟨.okRes u, true⟩

/-- The `Run` method (lines 45-114), translated in order: resolve the
command; wire stdin, stdout and stderr through the stream helper; read
`mustSucceed`; then run the process and finalize. -/
def Run (object : CueDoc) (pb : ProcessBehavior) : RunOut :=
  match mkCommand object with
  | .crashm m => ⟨.crashRes m, false⟩
  | .errm e => ⟨.errRes e, false⟩
  | .okm _c d =>
    match stdinSrc object with
    | .invalidIn => ⟨.errRes .invalidInput, false⟩
    | _ =>
      match readMustSucceed object with
      | .error e => ⟨.errRes e, false⟩
      | .ok mustSucceed => runFinalize object pb d mustSucceed

/-- Effective environment of the spawned child, modelling the documented
behaviour of Go os/exec: a nil `Env` makes the child inherit the
environment of the current process.  `mkCommand` starts from a nil `Env`
and only appends resolved entries, so an empty resolved environment is a
nil `Env` and the parent environment is inherited. -/
def effectiveEnv (parentEnv : List String) (env : List String) : List String :=
  if env.isEmpty then parentEnv else env

/-- Parameters the operating system receives for the spawned child. -/
structure SpawnRec where
  binary : String
  args : List String
  dir : String
  env : List String
deriving DecidableEq, Repr

/-- Spawn of the resolved command (line 169, `exec.CommandContext`, plus
the `Dir` and `Env` fields and the `cmd.Run()` call): the binary,
arguments and working directory are passed through, and the environment
is the effective environment given the parent environment. -/
def spawnOf (c : Cmd) (parentEnv : List String) : SpawnRec :=
  ⟨c.binary, c.args, c.dir, effectiveEnv parentEnv c.env⟩

/-! Sanity evaluations of the embedding on concrete documents. -/

example : fieldsGo "echo hello" = ["echo", "hello"] := by decide
example : fieldsGo "" = [] := by decide
example : fieldsGo "  a \t b\nc " = ["a", "b", "c"] := by decide
example : resolveCmd (some (.str "echo hello")) = .okc "echo" ["hello"] "echo hello" := by decide
example : resolveCmd (some (.str "")) = .crashc "index out of range" := by decide
example : resolveCmd (some (.list [])) = .errc .emptyCommandList := by decide
example : resolveCmd (some (.list [.str "ls", .str "-l"])) = .okc "ls" ["-l"] "ls -l" := by decide
example : resolveCmd (some (.int 3)) = .errc .emptyCommand := by decide
example : mkCommand [("cmd", .str "go build"), ("env", .struct [("A", .str "1"), ("B", .int 2)])]
    = .okm ⟨"go", ["build"], "", ["A=1", "B=2"]⟩ "go build" := by decide
example :
    Run [("cmd", .str "echo hello")] ⟨true, "", "hello\n", ""⟩
      = ⟨.okRes ⟨true, none, none⟩, true⟩ := by decide
example :
    Run [("cmd", .list [.str "false"]), ("mustSucceed", .bool true)]
        ⟨false, "exit status 1", "", ""⟩
      = ⟨.errRes (.commandFailed "false" "exit status 1"), true⟩ := by decide
example :
    Run [("cmd", .str "go env"), ("stdout", .incomplete .stringK)]
        ⟨true, "", "GOARCH=amd64", ""⟩
      = ⟨.okRes ⟨true, some (.str "GOARCH=amd64"), none⟩, true⟩ := by decide
example :
    Run [("cmd", .str "ls nope"), ("stderr", .incomplete .stringK)]
        ⟨false, "exit status 2", "", ""⟩
      = ⟨.okRes ⟨false, none, some (.str "exit status 2")⟩, true⟩ := by decide
example :
    Run [("cmd", .str "cat"), ("mustSucceed", .str "yes")]
        ⟨true, "", "", ""⟩
      = ⟨.errRes .invalidBool, false⟩ := by decide

/-! Helper lemmas. -/

theorem strOf_eq_some {v : CueVal} {s : String} (h : strOf v = some s) :
    v = .str s := by
  cases v <;> simp [strOf] at h <;> simp [h]

theorem stream_eq_none_iff (object : CueDoc) (name : String) :
    stream object name = none ↔
      (lookupField object name = none ∨ lookupField object name = some .null) := by
  cases h : lookupField object name with
  | none => simp [stream, h]
  | some v => cases v <;> simp [stream, h]

theorem stream_isSome_iff (object : CueDoc) (name : String) :
    (stream object name).isSome = true ↔
      ∃ v, lookupField object name = some v ∧ v ≠ .null := by
  cases h : lookupField object name with
  | none => simp [stream, h]
  | some v => cases v <;> simp [stream, h]

theorem stream_of_lookup {object : CueDoc} {name : String} {v : CueVal}
    (h : lookupField object name = some v) (hv : v ≠ .null) :
    stream object name = some v := by
  cases v <;> simp [stream, h] <;> simp at hv

theorem run_eq_finalize {object : CueDoc} {c : Cmd} {d : String} {ms : Bool}
    (pb : ProcessBehavior)
    (hm : mkCommand object = .okm c d)
    (hs : stdinSrc object ≠ .invalidIn)
    (hr : readMustSucceed object = .ok ms) :
    Run object pb = runFinalize object pb d ms := by
  unfold Run
  rw [hm]
  cases h2 : stdinSrc object with
  | invalidIn => exact absurd h2 hs
  | ambientIn => rw [hr]
  | docIn s => rw [hr]

/-! Claim C1. -/

/-- Claim C1, counterexample: in the document where the `stdout` field is
present and null, the claim predicts capture into a buffer, but the
stream helper rejects a null value (`Null()` returns no error, so the
helper returns not-ok) and stdout stays wired to the ambient handle. -/
theorem c1_present_null_counterexample :
    lookupField [("cmd", CueVal.str "echo"), ("stdout", CueVal.null)] "stdout"
        = some CueVal.null ∧
    stdoutSink [("cmd", CueVal.str "echo"), ("stdout", CueVal.null)]
        = Sink.ambient := ⟨rfl, rfl⟩

/-- Claim C1, amended: a stream is captured (stdout and stderr redirected
into a buffer; stdin fed from the document field) if and only if the
corresponding field is present and NOT null; when the field is absent or
null, the stream is wired to the ambient stdio handle.  In particular a
concrete string `stdin` field feeds its contents to the process. -/
theorem c1_capture_iff_present_not_null (object : CueDoc) :
    (stdoutSink object = Sink.buffer ↔
        ∃ v, lookupField object "stdout" = some v ∧ v ≠ CueVal.null) ∧
    (stderrSink object = Sink.buffer ↔
        ∃ v, lookupField object "stderr" = some v ∧ v ≠ CueVal.null) ∧
    (stdinSrc object = StdinSrc.ambientIn ↔
        (lookupField object "stdin" = none ∨
          lookupField object "stdin" = some CueVal.null)) ∧
    (∀ s, lookupField object "stdin" = some (CueVal.str s) →
        stdinSrc object = StdinSrc.docIn s) := by
  refine ⟨?_, ?_, ?_, ?_⟩
  · rw [← stream_isSome_iff]
    unfold stdoutSink
    cases h : (stream object "stdout").isSome <;> simp [h]
  · rw [← stream_isSome_iff]
    unfold stderrSink
    cases h : (stream object "stderr").isSome <;> simp [h]
  · rw [← stream_eq_none_iff]
    unfold stdinSrc
    cases h : stream object "stdin" with
    | none => simp
    | some v => cases hr : readerOf v <;> simp [hr]
  · intro s hl
    unfold stdinSrc
    rw [stream_of_lookup hl (by simp)]
    rfl

/-- Claim C1, witness: a string-kind `stdout` field is captured into the
buffer, and a concrete string `stdin` field feeds the process input from
the document. -/
theorem c1_witness :
    stdoutSink [("stdout", CueVal.incomplete .stringK)] = Sink.buffer ∧
    stdinSrc [("stdin", CueVal.str "data")] = StdinSrc.docIn "data" :=
  ⟨(c1_capture_iff_present_not_null [("stdout", CueVal.incomplete .stringK)]).1.mpr
      ⟨CueVal.incomplete .stringK, rfl, by simp⟩,
    (c1_capture_iff_present_not_null [("stdin", CueVal.str "data")]).2.2.2 "data" rfl⟩

/-! Claim C2. -/

/-- Claim C2: resolving a string `cmd` tokenizes on runs of whitespace,
takes the first token as the binary, the rest as the args, and keeps the
original string as the display doc; but on a string with no tokens the
code reads `list[0]` of the empty token slice, a runtime
index-out-of-range panic, instead of returning the empty-command error
the claim states. -/
theorem c2_string_cmd_eval :
    mkCommand [("cmd", CueVal.str "echo  hello\tworld")]
        = .okm ⟨"echo", ["hello", "world"], "", []⟩ "echo  hello\tworld" ∧
    mkCommand [("cmd", CueVal.str "")] = .crashm "index out of range" ∧
    mkCommand [("cmd", CueVal.str " \t\n")] = .crashm "index out of range" := by
  refine ⟨by decide, by decide, by decide⟩

/-! Claim C3. -/

/-- Claim C3: when the `mustSucceed` field is present but not
boolean-resolvable, `Run` returns the invalid-bool error and the process
is never executed; when the field is absent it is treated as false (the
schema default, modelled from the spec) and `Run` proceeds normally,
returning an update whose success flag reflects the process exit. -/
theorem c3_mustSucceed_read (object : CueDoc) (pb : ProcessBehavior)
    (c : Cmd) (d : String)
    (hm : mkCommand object = .okm c d)
    (hs : stdinSrc object ≠ .invalidIn) :
    (∀ v, lookupField object "mustSucceed" = some v → isBoolV v = false →
        Run object pb = ⟨.errRes .invalidBool, false⟩) ∧
    (lookupField object "mustSucceed" = none →
        (Run object pb).ran = true ∧
        ∃ u : Update, (Run object pb).res = .okRes u ∧ u.success = pb.exitOk) := by
  constructor
  · intro v hl hb
    have hr : readMustSucceed object = .error .invalidBool := by
      unfold readMustSucceed
      rw [hl]
      cases v <;> simp [isBoolV] at hb ⊢
    unfold Run
    rw [hm]
    cases h2 : stdinSrc object with
    | invalidIn => exact absurd h2 hs
    | ambientIn => rw [hr]
    | docIn s => rw [hr]
  · intro hl
    have hr : readMustSucceed object = .ok false := by
      unfold readMustSucceed
      rw [hl]
    rw [run_eq_finalize pb hm hs hr]
    unfold runFinalize
    by_cases hp : pb.exitOk <;> simp [hp]

/-- Claim C3, witness: a non-boolean `mustSucceed` yields the invalid
bool error without execution, and an absent `mustSucceed` runs the
process and reports its success. -/
theorem c3_witness :
    Run [("cmd", CueVal.str "cat"), ("mustSucceed", CueVal.str "yes")]
        ⟨true, "", "", ""⟩ = ⟨.errRes .invalidBool, false⟩ ∧
    ((Run [("cmd", CueVal.str "echo hello")] ⟨true, "", "hello", ""⟩).ran = true ∧
      ∃ u : Update,
        (Run [("cmd", CueVal.str "echo hello")] ⟨true, "", "hello", ""⟩).res
            = .okRes u ∧
        u.success = true) := by
  constructor
  · exact (c3_mustSucceed_read _ _ ⟨"cat", [], "", []⟩ "cat" (by decide)
      (by decide)).1 (CueVal.str "yes") rfl rfl
  · exact (c3_mustSucceed_read _ _ ⟨"echo", ["hello"], "", []⟩ "echo hello"
      (by decide) (by decide)).2 rfl

/-! Claim C4. -/

/-- Claim C4, counterexample: for a document with no `env` field the
resolved environment sequence is empty, and the spawned child then
receives the full parent environment, not an empty or default one. -/
theorem c4_empty_env_counterexample :
    mkCommand [("cmd", CueVal.str "echo hi")]
        = .okm ⟨"echo", ["hi"], "", []⟩ "echo hi" ∧
    (spawnOf ⟨"echo", ["hi"], "", []⟩ ["HOME=/root"]).env = ["HOME=/root"] ∧
    (spawnOf ⟨"echo", ["hi"], "", []⟩ ["HOME=/root"]).env ≠ [] := by
  exact ⟨by decide, rfl, by decide⟩

/-- Claim C4, amended: the process is spawned with exactly the resolved
binary, args, working directory and environment; but when the resolved
environment sequence is empty (in particular when the `env` field is
absent), `cmd.Env` stays nil and the child inherits the parent
environment in full, rather than receiving an empty or default one. -/
theorem c4_spawn_params (object : CueDoc) (parentEnv : List String)
    (c : Cmd) (d : String) (hm : mkCommand object = .okm c d) :
    (spawnOf c parentEnv).binary = c.binary ∧
    (spawnOf c parentEnv).args = c.args ∧
    (spawnOf c parentEnv).dir = c.dir ∧
    (c.env ≠ [] → (spawnOf c parentEnv).env = c.env) ∧
    (c.env = [] → (spawnOf c parentEnv).env = parentEnv) ∧
    (lookupField object "env" = none → c.env = []) := by
  refine ⟨rfl, rfl, rfl, ?_, ?_, ?_⟩
  · intro hne
    simp [spawnOf, effectiveEnv, hne]
  · intro he
    simp [spawnOf, effectiveEnv, he]
  · intro he
    unfold mkCommand at hm
    cases hc : resolveCmd (lookupField object "cmd") <;> rw [hc] at hm
    case errc e => exact absurd hm (by simp)
    case crashc m => exact absurd hm (by simp)
    case okc bin args d0 =>
      rw [he] at hm
      simp only [resolveEnv] at hm
      injection hm with h1 h2
      rw [← h1]

/-- Claim C4, witness: the witness document resolves to the command
`echo hi` with an empty environment, and with parent environment
`["A=1"]` the spawn passes the binary, args and directory through and
the child environment is the parent environment. -/
theorem c4_witness :
    (spawnOf ⟨"echo", ["hi"], "", []⟩ ["A=1"]).binary = "echo" ∧
    (spawnOf ⟨"echo", ["hi"], "", []⟩ ["A=1"]).args = ["hi"] ∧
    (spawnOf ⟨"echo", ["hi"], "", []⟩ ["A=1"]).env = ["A=1"] := by
  have h := c4_spawn_params [("cmd", CueVal.str "echo hi")] ["A=1"]
    ⟨"echo", ["hi"], "", []⟩ "echo hi" (by decide)
  exact ⟨h.1, h.2.1, h.2.2.2.2.1 rfl⟩

/-! Claim C5. -/

/-- Claim C5: when the process fails and `mustSucceed` is true, `Run`
returns no update and the command-failed error carrying the display form
of the command and the process error text; when the process succeeds, or
fails with `mustSucceed` false, `Run` returns the update document with
its success flag and no error. -/
theorem c5_mustSucceed_policy (object : CueDoc) (pb : ProcessBehavior)
    (c : Cmd) (d : String) (ms : Bool)
    (hm : mkCommand object = .okm c d)
    (hs : stdinSrc object ≠ .invalidIn)
    (hr : readMustSucceed object = .ok ms) :
    (pb.exitOk = false → ms = true →
        Run object pb = ⟨.errRes (.commandFailed d pb.errText), true⟩) ∧
    (pb.exitOk = true ∨ ms = false →
        ∃ u : Update, Run object pb = ⟨.okRes u, true⟩ ∧ u.success = pb.exitOk) := by
  rw [run_eq_finalize pb hm hs hr]
  unfold runFinalize
  constructor
  · intro hp hms
    simp [hp, hms]
  · intro h
    rcases h with hp | hms
    · simp [hp]
    · by_cases hp : pb.exitOk <;> simp [hp, hms]

/-- Claim C5, witness: `cmd = ["false"]` with `mustSucceed = true` and a
failing process yields the command-failed error mentioning the command
text, with the process executed; the same command with `mustSucceed`
false yields an update with success false. -/
theorem c5_witness :
    Run [("cmd", CueVal.list [CueVal.str "false"]), ("mustSucceed", CueVal.bool true)]
        ⟨false, "exit status 1", "", ""⟩
      = ⟨.errRes (.commandFailed "false" "exit status 1"), true⟩ ∧
    ∃ u : Update,
      Run [("cmd", CueVal.list [CueVal.str "false"]), ("mustSucceed", CueVal.bool false)]
          ⟨false, "exit status 1", "", ""⟩ = ⟨.okRes u, true⟩ ∧
      u.success = false := by
  constructor
  · exact (c5_mustSucceed_policy
      [("cmd", CueVal.list [CueVal.str "false"]), ("mustSucceed", CueVal.bool true)]
      ⟨false, "exit status 1", "", ""⟩ ⟨"false", [], "", []⟩ "false" true
      (by decide) (by decide) rfl).1 rfl rfl
  · exact (c5_mustSucceed_policy
      [("cmd", CueVal.list [CueVal.str "false"]), ("mustSucceed", CueVal.bool false)]
      ⟨false, "exit status 1", "", ""⟩ ⟨"false", [], "", []⟩ "false" false
      (by decide) (by decide) rfl).2 (Or.inr rfl)

/-! Lemmas for the list branch of the resolver. -/

theorem resolveListLoop_ok_inv (rest : List CueVal) :
    ∀ b args d b2 args2 d2,
      resolveListLoop b args d rest = .okc b2 args2 d2 →
      ∃ ss : List String, rest = ss.map CueVal.str ∧ b2 = b ∧
        args2 = args ++ ss ∧ d2 = ss.foldl (fun a s => a ++ " " ++ s) d := by
  induction rest with
  | nil =>
    intro b args d b2 args2 d2 h
    unfold resolveListLoop at h
    injection h with h1 h2 h3
    exact ⟨[], rfl, h1.symm, by simp [h2.symm], h3.symm⟩
  | cons v vs ih =>
    intro b args d b2 args2 d2 h
    unfold resolveListLoop at h
    cases hv : strOf v <;> rw [hv] at h
    case none => exact absurd h (by simp)
    case some s =>
      obtain ⟨ss, hrest, hb, hargs, hd⟩ := ih _ _ _ _ _ _ h
      refine ⟨s :: ss, ?_, hb, ?_, hd⟩
      · rw [List.map_cons, ← hrest, strOf_eq_some hv]
      · simp [hargs]

theorem resolveListLoop_bad (rest : List CueVal) :
    ∀ b args d, (∃ v ∈ rest, strOf v = none) →
      resolveListLoop b args d rest = .errc .invalidElement := by
  induction rest with
  | nil =>
    intro b args d h
    obtain ⟨v, hv, _⟩ := h
    simp at hv
  | cons u us ih =>
    intro b args d h
    obtain ⟨v, hv, hn⟩ := h
    unfold resolveListLoop
    rcases List.mem_cons.mp hv with h1 | h1
    · subst h1
      rw [hn]
    · cases hu : strOf u with
      | none => rfl
      | some s => exact ih _ _ _ ⟨v, h1, hn⟩

theorem intercalate_cons_foldl (b : String) (as : List String) :
    " ".intercalate (b :: as) = as.foldl (fun a s => a ++ " " ++ s) b := by
  show String.intercalate.go b " " as = _
  induction as generalizing b with
  | nil => rfl
  | cons a rest ih => exact ih (b ++ " " ++ a)

/-! Claim C6. -/

/-- Claim C6: a successfully resolved list command has the first element
(a string) as binary, the remaining elements in order as args, and the
space-joined reconstruction as display doc; the empty list fails with the
empty-command-list error, at the `Run` level before any process is
spawned; and a list containing an element that does not resolve to a
string fails with the invalid-element error. -/
theorem c6_list_cmd (xs : List CueVal) (b : String) (args : List String)
    (d : String) (object : CueDoc) (pb : ProcessBehavior) :
    (resolveCmd (some (.list xs)) = .okc b args d →
        xs = (b :: args).map CueVal.str ∧ d = " ".intercalate (b :: args)) ∧
    (resolveCmd (some (.list [])) = .errc .emptyCommandList) ∧
    (lookupField object "cmd" = some (.list []) →
        Run object pb = ⟨.errRes .emptyCommandList, false⟩) ∧
    ((∃ v ∈ xs, strOf v = none) →
        resolveCmd (some (.list xs)) = .errc .invalidElement) := by
  refine ⟨?_, rfl, ?_, ?_⟩
  · intro h
    unfold resolveCmd at h
    cases hc : resolveCmdCore (some (.list xs)) <;> rw [hc] at h <;> dsimp only at h
    case errc e => exact absurd h (by simp)
    case crashc m => exact absurd h (by simp)
    case okc bin a0 d0 =>
      by_cases hb : bin = ""
      · rw [if_pos hb] at h
        exact absurd h (by simp)
      · rw [if_neg hb] at h
        injection h with h1 h2 h3
        subst h1; subst h2; subst h3
        unfold resolveCmdCore at hc
        cases xs with
        | nil => exact absurd hc (by simp)
        | cons v0 vs =>
          dsimp only at hc
          cases hv : strOf v0 with
          | none =>
            rw [hv] at hc
            exact absurd hc (by simp)
          | some s =>
            rw [hv] at hc
            obtain ⟨ss, hrest, hbin, hargs, hd⟩ := resolveListLoop_ok_inv vs _ _ _ _ _ _ hc
            subst hbin
            constructor
            · rw [List.map_cons, hargs, List.nil_append, ← hrest, strOf_eq_some hv]
            · rw [hd, hargs, List.nil_append, intercalate_cons_foldl]
  · intro hcmd
    have hmk : mkCommand object = .errm .emptyCommandList := by
      unfold mkCommand
      rw [hcmd]
      rfl
    unfold Run
    rw [hmk]

  · intro hbad
    unfold resolveCmd resolveCmdCore
    cases xs with
    | nil =>
      obtain ⟨v, hv, _⟩ := hbad
      simp at hv
    | cons v0 vs =>
      dsimp only
      cases hv : strOf v0 with
      | none => rfl
      | some s =>
        dsimp only
        obtain ⟨v, hv2, hn⟩ := hbad
        rcases List.mem_cons.mp hv2 with h1 | h1
        · subst h1
          rw [hv] at hn
          exact absurd hn (by simp)
        · rw [resolveListLoop_bad vs _ _ _ ⟨v, h1, hn⟩]

/-- Claim C6, witness: the list `["ls", "-l"]` resolves to binary `ls`,
args `["-l"]` and display doc `ls -l`, satisfying the component
description; the empty-list document fails before spawning; and a list
with a non-string element fails with the invalid-element error. -/
theorem c6_witness :
    ([CueVal.str "ls", CueVal.str "-l"]
        = ([("ls" : String)] ++ ["-l"]).map CueVal.str ∧
      ("ls -l" : String) = " ".intercalate ("ls" :: ["-l"])) ∧
    Run [("cmd", CueVal.list [])] ⟨true, "", "", ""⟩
        = ⟨.errRes .emptyCommandList, false⟩ ∧
    resolveCmd (some (.list [CueVal.str "ls", CueVal.int 3]))
        = .errc .invalidElement := by
  refine ⟨?_, ?_, ?_⟩
  · exact (c6_list_cmd [CueVal.str "ls", CueVal.str "-l"] "ls" ["-l"] "ls -l"
      [] ⟨true, "", "", ""⟩).1 (by decide)
  · exact (c6_list_cmd [] "" [] "" [("cmd", CueVal.list [])]
      ⟨true, "", "", ""⟩).2.2.1 rfl
  · exact (c6_list_cmd [CueVal.str "ls", CueVal.int 3] "" [] ""
      [] ⟨true, "", "", ""⟩).2.2.2 ⟨CueVal.int 3, by simp, rfl⟩

/-! Claim C7. -/

/-- Claim C7: when stderr capture was requested (with declared kind
string or bytes), the process exited with an error, and the capture
buffer received nothing from the child, the stderr value of the result is
the textual description of the process error. -/
theorem c7_stderr_error_text (object : CueDoc) (pb : ProcessBehavior)
    (c : Cmd) (d : String) (v : CueVal)
    (hm : mkCommand object = .okm c d)
    (hs : stdinSrc object ≠ .invalidIn)
    (hr : readMustSucceed object = .ok false)
    (hv : stream object "stderr" = some v)
    (hk : incompleteKind v = .stringK ∨ incompleteKind v = .bytesK)
    (hempty : pb.stderrData = "")
    (hfail : pb.exitOk = false) :
    ∃ u : Update, (Run object pb).res = .okRes u ∧
      u.stderr = some (if incompleteKind v = .stringK then OutVal.str pb.errText
        else OutVal.bytes pb.errText) := by
  rw [run_eq_finalize pb hm hs hr]
  unfold runFinalize
  have hbuf : stderrFinal pb = pb.errText := by
    simp [stderrFinal, hempty, hfail]
  refine ⟨⟨pb.exitOk,
      (stream object "stdout").map (fun w => toStreamOutput w pb.stdoutData),
      (stream object "stderr").map (fun w => toStreamOutput w (stderrFinal pb))⟩, ?_, ?_⟩
  · simp [hfail]
  · dsimp only
    rw [hv]
    dsimp only [Option.map]
    rw [hbuf]
    rcases hk with h | h <;> simp [toStreamOutput, h]

/-- Claim C7, witness: a failing process that wrote nothing to a
string-captured stderr yields the process error text as the stderr
string. -/
theorem c7_witness :
    ∃ u : Update,
      (Run [("cmd", CueVal.str "ls nope"), ("stderr", CueVal.incomplete .stringK)]
        ⟨false, "exit status 2", "", ""⟩).res = .okRes u ∧
      u.stderr = some (OutVal.str "exit status 2") := by
  have h := c7_stderr_error_text
    [("cmd", CueVal.str "ls nope"), ("stderr", CueVal.incomplete .stringK)]
    ⟨false, "exit status 2", "", ""⟩ ⟨"ls", ["nope"], "", []⟩ "ls nope"
    (CueVal.incomplete .stringK) (by decide) (by decide) rfl rfl
    (Or.inl rfl) rfl rfl
  simpa using h

/-! Claim C8. -/

/-- Claim C8: the value exposed in the update for every captured stream
is the capture buffer contents as a string when the requesting field has
declared kind string, as a byte sequence when the declared kind is bytes,
and null for any other declared kind.  The stdout buffer holds exactly
what the child wrote; the stderr buffer is the finalized stderr buffer. -/
theorem c8_stream_typing (object : CueDoc) (pb : ProcessBehavior)
    (c : Cmd) (d : String) (ms : Bool)
    (hm : mkCommand object = .okm c d)
    (hs : stdinSrc object ≠ .invalidIn)
    (hr : readMustSucceed object = .ok ms)
    (hok : pb.exitOk = true ∨ ms = false) :
    ∃ u : Update, (Run object pb).res = .okRes u ∧
      (∀ v, stream object "stdout" = some v →
        u.stdout = some (if incompleteKind v = .stringK then OutVal.str pb.stdoutData
          else if incompleteKind v = .bytesK then OutVal.bytes pb.stdoutData
          else OutVal.null)) ∧
      (∀ v, stream object "stderr" = some v →
        u.stderr = some (if incompleteKind v = .stringK then OutVal.str (stderrFinal pb)
          else if incompleteKind v = .bytesK then OutVal.bytes (stderrFinal pb)
          else OutVal.null)) := by
  rw [run_eq_finalize pb hm hs hr]
  unfold runFinalize
  refine ⟨⟨pb.exitOk,
      (stream object "stdout").map (fun w => toStreamOutput w pb.stdoutData),
      (stream object "stderr").map (fun w => toStreamOutput w (stderrFinal pb))⟩, ?_, ?_, ?_⟩
  · rcases hok with hp | hms
    · simp [hp]
    · by_cases hp : pb.exitOk <;> simp [hp, hms]
  · intro v hv
    dsimp only
    rw [hv]
    dsimp only [Option.map]
    cases hk : incompleteKind v <;> simp [toStreamOutput, hk]
  · intro v hv
    dsimp only
    rw [hv]
    dsimp only [Option.map]
    cases hk : incompleteKind v <;> simp [toStreamOutput, hk]

/-- Claim C8, witness: a bytes-kind stdout capture is exposed as bytes,
and an other-kind stderr capture is exposed as null even though capture
occurred. -/
theorem c8_witness :
    ∃ u : Update,
      (Run [("cmd", CueVal.str "go env"), ("stdout", CueVal.incomplete .bytesK),
          ("stderr", CueVal.incomplete .intK)]
        ⟨true, "", "data", "noise"⟩).res = .okRes u ∧
      u.stdout = some (OutVal.bytes "data") ∧
      u.stderr = some OutVal.null := by
  have h := c8_stream_typing
    [("cmd", CueVal.str "go env"), ("stdout", CueVal.incomplete .bytesK),
      ("stderr", CueVal.incomplete .intK)]
    ⟨true, "", "data", "noise"⟩ ⟨"go", ["env"], "", []⟩ "go env" false
    (by decide) (by decide) rfl (Or.inl rfl)
  obtain ⟨u, hres, hout, herr⟩ := h
  refine ⟨u, hres, ?_, ?_⟩
  · simpa using hout (CueVal.incomplete .bytesK) rfl
  · simpa using herr (CueVal.incomplete .intK) rfl

/-! Claim C9. -/

theorem envFromStruct_strings (fs : List (String × String)) :
    envFromStruct (fs.map (fun p => (p.1, CueVal.str p.2)))
      = .ok (fs.map (fun p => p.1 ++ "=" ++ p.2)) := by
  induction fs with
  | nil => rfl
  | cons p rest ih => simp [envFromStruct, envEntry, Except.map, ih]

theorem envFromList_strings (ss : List String) :
    envFromList (ss.map CueVal.str) = .ok ss := by
  induction ss with
  | nil => rfl
  | cons t rest ih => simp [envFromList, strOf, Except.map, ih]

/-- Claim C9: an `env` struct of string-valued fields and the `env` list
of the corresponding `KEY=VALUE` strings, in the same order, resolve to
the same ordered environment sequence, namely exactly those `KEY=VALUE`
entries. -/
theorem c9_env_struct_list_agree (fs : List (String × String)) :
    resolveEnv (some (.struct (fs.map (fun p => (p.1, CueVal.str p.2)))))
      = resolveEnv (some (.list (fs.map (fun p => CueVal.str (p.1 ++ "=" ++ p.2))))) ∧
    resolveEnv (some (.struct (fs.map (fun p => (p.1, CueVal.str p.2)))))
      = .ok (fs.map (fun p => p.1 ++ "=" ++ p.2)) := by
  have h1 : resolveEnv (some (.struct (fs.map (fun p => (p.1, CueVal.str p.2)))))
      = .ok (fs.map (fun p => p.1 ++ "=" ++ p.2)) := by
    simp only [resolveEnv]
    exact envFromStruct_strings fs
  have h2 : resolveEnv (some (.list (fs.map (fun p => CueVal.str (p.1 ++ "=" ++ p.2)))))
      = .ok (fs.map (fun p => p.1 ++ "=" ++ p.2)) := by
    simp only [resolveEnv]
    have h3 := envFromList_strings (fs.map (fun p => p.1 ++ "=" ++ p.2))
    rw [List.map_map] at h3
    exact h3
  exact ⟨h1.trans h2.symm, h1⟩

/-! Claim C10. -/

/-- Claim C10: whenever `Run` returns the invalid-bool error for
`mustSucceed`, the child process was never executed (`cmd.Run()` at line
90 was not reached) and no update document is produced: the validation
happens after the stream wiring and before the process start. -/
theorem c10_invalid_bool_no_exec (object : CueDoc) (pb : ProcessBehavior)
    (h : (Run object pb).res = .errRes .invalidBool) :
    (Run object pb).ran = false := by
  unfold Run at h ⊢
  cases hm : mkCommand object with
  | crashm m => rfl
  | errm e => rfl
  | okm c d =>
    dsimp only at h ⊢
    cases hs : stdinSrc object with
    | invalidIn => rfl
    | ambientIn =>
      dsimp only at h ⊢
      cases hr : readMustSucceed object with
      | error e => rfl
      | ok ms =>
        dsimp only at h ⊢
        exfalso
        unfold runFinalize at h
        by_cases hp : pb.exitOk
        · simp [hm, hs, hr, hp] at h
        · by_cases hms : ms <;> simp [hm, hs, hr, hp, hms] at h
    | docIn t =>
      dsimp only at h ⊢
      cases hr : readMustSucceed object with
      | error e => rfl
      | ok ms =>
        dsimp only at h ⊢
        exfalso
        unfold runFinalize at h
        by_cases hp : pb.exitOk
        · simp [hm, hs, hr, hp] at h
        · by_cases hms : ms <;> simp [hm, hs, hr, hp, hms] at h

/-- Claim C10, witness: a document with a numeric `mustSucceed` gives the
invalid-bool error and the process is marked as never run. -/
theorem c10_witness :
    (Run [("cmd", CueVal.str "cat"), ("mustSucceed", CueVal.int 1)]
        ⟨true, "", "", ""⟩).ran = false :=
  c10_invalid_bool_no_exec
    [("cmd", CueVal.str "cat"), ("mustSucceed", CueVal.int 1)]
    ⟨true, "", "", ""⟩ (by decide)
